import Mathlib

/-!
Verification of the metabase garbage-collection pipeline
(`DeleteExpiredObjects`, `DeleteZombieObjects`,
`deleteObjectsAndSegmentsBatch`, `deleteObjectsAndSegments`).

The Go code scans the `objects` table with keyset pagination, and for each
page queues, over one connection, a pipelined SQL batch of
`START TRANSACTION` / `DELETE FROM objects ...` / `DELETE FROM segments ...` /
`COMMIT TRANSACTION` statements, one quadruple per object, then walks the
per-statement results accumulating counters and errors.

The embedding below models the metadata store as explicit lists of object
and segment rows, the SQL page query as an executable "repeatedly pick the
least matching key strictly above the cursor" function (which agrees with
`ORDER BY ... LIMIT n` under the table's primary-key uniqueness), and the
pipelined batch as a list of statements interpreted by a small transactional
semantics of the SQL engine.
-/

/-- Object status. The spec's data model has `Status ∈ {Pending, Committed}`;
`pendingStatus` is the constant used by the zombie query. -/
inductive ObjectStatus where
  | pending
  | committed
deriving DecidableEq

/-- `ObjectStream` from the Go code: the object's key tuple
(ProjectID, BucketName, ObjectKey, Version) together with its StreamID.
UUIDs and byte strings are modelled as `Nat`, `Version` (an int64) as `Int`.
The Go zero value (used as the initial cursor, and as the "no rows"
sentinel checked through `StreamID.IsZero`) is all-zero. -/
structure ObjectStream where
  projectID : Nat
  bucketName : Nat
  objectKey : Nat
  version : Int
  streamID : Nat
deriving DecidableEq

/-- The zero `ObjectStream` (Go's `ObjectStream{}`). -/
def ObjectStream.zero : ObjectStream := ⟨0, 0, 0, 0, 0⟩

/-- A row of the `objects` table, with the columns the GC queries touch. -/
structure ObjectRow where
  stream : ObjectStream
  status : ObjectStatus
  expiresAt : Option Int
  zombieDeletionDeadline : Option Int
deriving DecidableEq

/-- A row of the `segments` table; only `stream_id` matters to GC, `position`
just keeps distinct rows distinct. -/
structure SegmentRow where
  streamID : Nat
  position : Nat
deriving DecidableEq

/-- The metadata store state visible to the GC pipeline. -/
structure MetabaseState where
  objects : List ObjectRow
  segments : List SegmentRow
deriving DecidableEq

/-- SQL row-value comparison
`(project_id, bucket_name, object_key, version) < (...)`:
lexicographic order on the key tuple (the StreamID takes no part). -/
def keyLt (a b : ObjectStream) : Prop :=
  a.projectID < b.projectID ∨
    (a.projectID = b.projectID ∧
      (a.bucketName < b.bucketName ∨
        (a.bucketName = b.bucketName ∧
          (a.objectKey < b.objectKey ∨
            (a.objectKey = b.objectKey ∧ a.version < b.version)))))

instance (a b : ObjectStream) : Decidable (keyLt a b) := by
  unfold keyLt; infer_instance

/-- Equality of key tuples (StreamID ignored), as used by SQL
`(project_id, bucket_name, object_key, version) = (...)`. -/
def sameKey (a b : ObjectStream) : Prop :=
  a.projectID = b.projectID ∧ a.bucketName = b.bucketName ∧
    a.objectKey = b.objectKey ∧ a.version = b.version

instance (a b : ObjectStream) : Decidable (sameKey a b) := by
  unfold sameKey; infer_instance

/-- The `WHERE` predicate of the expired-object query:
`expires_at < $5` (SQL: `NULL < x` is not true). Note the query has no
condition on `status`. -/
def expiredPred (expiredBefore : Int) (r : ObjectRow) : Bool :=
  match r.expiresAt with
  | some t => decide (t < expiredBefore)
  | none => false

/-- The `WHERE` predicate of the zombie-object query:
`status = pendingStatus AND zombie_deletion_deadline < $5`. -/
def zombiePred (deadlineBefore : Int) (r : ObjectRow) : Bool :=
  decide (r.status = .pending) &&
    match r.zombieDeletionDeadline with
    | some t => decide (t < deadlineBefore)
    | none => false

/-- The least row of `rows` that matches `pred` and has key tuple strictly
greater than `cursor`, if any. Building block for the page query. -/
def minMatchRow (pred : ObjectRow → Bool) (cursor : ObjectStream) :
    List ObjectRow → Option ObjectRow
  | [] => none
  | r :: rest =>
    if pred r = true ∧ keyLt cursor r.stream then
      match minMatchRow pred cursor rest with
      | none => some r
      | some m' => if keyLt r.stream m'.stream then some r else some m'
    else minMatchRow pred cursor rest

/-- Model of the keyset-pagination query
`SELECT ... WHERE (key tuple) > cursor AND pred ORDER BY key tuple LIMIT n`:
repeatedly take the least matching row strictly above the cursor. Under the
`objects` primary key (distinct key tuples) this is exactly the SQL page. -/
def selectPage (pred : ObjectRow → Bool) (cursor : ObjectStream) :
    Nat → List ObjectRow → List ObjectRow
  | 0, _ => []
  | n + 1, rows =>
    match minMatchRow pred cursor rows with
    | none => []
    | some r => r :: selectPage pred r.stream n rows

/-- One statement of the pipelined deletion batch. -/
inductive Stmt where
  | startTx
  | deleteObject (obj : ObjectStream)
  | deleteSegments (streamID : Nat)
  | commitTx
deriving DecidableEq

/-- The four statements `deleteObjectsAndSegments` queues per object:
`START TRANSACTION`;
`DELETE FROM objects WHERE (key tuple) = obj AND stream_id = obj.streamID`;
`DELETE FROM segments WHERE segments.stream_id = obj.streamID`;
`COMMIT TRANSACTION`. -/
def unitStmts (obj : ObjectStream) : List Stmt :=
  [.startTx, .deleteObject obj, .deleteSegments obj.streamID, .commitTx]

/-- The whole pipelined batch queued by `deleteObjectsAndSegments`. -/
def buildBatch (objects : List ObjectStream) : List Stmt :=
  objects.flatMap unitStmts

/-- Effect of `DELETE FROM objects WHERE (project_id, bucket_name,
object_key, version) = ... AND stream_id = ...`: the rows removed are those
matching key tuple *and* stream id; returns the new state and the
statement's rows-affected count. -/
def applyDeleteObject (st : MetabaseState) (obj : ObjectStream) :
    MetabaseState × Nat :=
  let hit : ObjectRow → Bool :=
    fun r => decide (sameKey r.stream obj) && r.stream.streamID == obj.streamID
  (⟨st.objects.filter (fun r => !(hit r)), st.segments⟩, st.objects.countP hit)

/-- Effect of `DELETE FROM segments WHERE segments.stream_id = $1`:
unconditional on everything but the stream id. -/
def applyDeleteSegments (st : MetabaseState) (sid : Nat) :
    MetabaseState × Nat :=
  (⟨st.objects, st.segments.filter (fun g => !(g.streamID == sid))⟩,
   st.segments.countP (fun g => g.streamID == sid))

/-- Interpreter state of the SQL engine while it works through the
pipelined batch on one connection: the committed store, the open
transaction's working copy (if any), and whether that transaction has
aborted on a failed statement. -/
structure ExecAcc where
  committed : MetabaseState
  tx : Option MetabaseState
  txAborted : Bool

/-- Transactional semantics of one statement, modelling the SQL engine the
code drives (external to the repository): a failed delete aborts the open
transaction; later statements of an aborted transaction error out; `COMMIT`
on an aborted transaction rolls back, otherwise it installs the working
copy. `fails` says whether the engine fails this (delete) statement; start
and commit themselves are taken as non-failing, their failure modes being
connection-level. The result is `some rowsAffected` or `none` for an error
(`Exec` returning `err != nil`). -/
def execStmt (fails : Bool) (acc : ExecAcc) : Stmt → ExecAcc × Option Nat
  | .startTx =>
    (⟨acc.committed, some acc.committed, false⟩, some 0)
  | .deleteObject obj =>
    if acc.txAborted then (acc, none)
    else if fails then (⟨acc.committed, acc.tx, acc.tx.isSome⟩, none)
    else
      match acc.tx with
      | some cur =>
        (⟨acc.committed, some (applyDeleteObject cur obj).1, false⟩,
         some (applyDeleteObject cur obj).2)
      | none =>
        (⟨(applyDeleteObject acc.committed obj).1, none, false⟩,
         some (applyDeleteObject acc.committed obj).2)
  | .deleteSegments sid =>
    if acc.txAborted then (acc, none)
    else if fails then (⟨acc.committed, acc.tx, acc.tx.isSome⟩, none)
    else
      match acc.tx with
      | some cur =>
        (⟨acc.committed, some (applyDeleteSegments cur sid).1, false⟩,
         some (applyDeleteSegments cur sid).2)
      | none =>
        (⟨(applyDeleteSegments acc.committed sid).1, none, false⟩,
         some (applyDeleteSegments acc.committed sid).2)
  | .commitTx =>
    if acc.txAborted then (⟨acc.committed, none, false⟩, some 0)
    else
      match acc.tx with
      | some cur => (⟨cur, none, false⟩, some 0)
      | none => (acc, some 0)

/-- Run the batch's statements in order (statement `i` fails when
`failsAt i`), collecting each statement's result as the Go loop over
`results.Exec()` sees them. -/
def execStmts (failsAt : Nat → Bool) : Nat → ExecAcc → List Stmt →
    ExecAcc × List (Option Nat)
  | _, acc, [] => (acc, [])
  | i, acc, s :: rest =>
    ((execStmts failsAt (i + 1) (execStmt (failsAt i) acc s).1 rest).1,
     (execStmt (failsAt i) acc s).2 ::
       (execStmts failsAt (i + 1) (execStmt (failsAt i) acc s).1 rest).2)

/-- The Go accounting loop over the batch results:
`switch i % 3 { case 0: case 1: objectsDeleted += ...; case 2:
segmentsDeleted += ...; case 3: }`, adding only when `err == nil`.
(Note the code really writes `i % 3` although each object queues four
statements; `case 3` is unreachable.) -/
def countersGo : Nat → Nat × Nat → List (Option Nat) → Nat × Nat
  | _, acc, [] => acc
  | i, acc, r :: rest =>
    let acc2 :=
      match i % 3, r with
      | 1, some n => (acc.1 + n, acc.2)
      | 2, some n => (acc.1, acc.2 + n)
      | _, _ => acc
    countersGo (i + 1) acc2 rest

/-- `object_delete` / `segment_delete` counter increments computed from the
per-statement results. -/
def countersFromResults (results : List (Option Nat)) : Nat × Nat :=
  countersGo 0 (0, 0) results

/-- Model of `DB.deleteObjectsAndSegments`: on a non-empty object list,
build the pipelined batch, run it, account the counters with the `i % 3`
switch, and report an error exactly when any statement errored
(`errlist.Add(err)` / `errlist.Err()`). Returns
(new store, object_delete increment, segment_delete increment, error?). -/
def deleteObjectsAndSegments (failsAt : Nat → Bool) (st : MetabaseState)
    (objects : List ObjectStream) : MetabaseState × Nat × Nat × Bool :=
  if objects.isEmpty then (st, 0, 0, false)
  else
    let run := execStmts failsAt 0 ⟨st, none, false⟩ (buildBatch objects)
    (run.1.committed, (countersFromResults run.2).1, (countersFromResults run.2).2,
     run.2.any (·.isNone))

/-- Result of a GC pass, instrumented with the list of pages (as scanned
`ObjectStream`s) handed to the delete executor: the pass either completed
(empty page reached), stopped on a batch error, or — an artifact of the
fuel-indexed model of the unbounded Go `for` loop — ran out of fuel. -/
inductive GCResult where
  | done (st : MetabaseState) (batches : List (List ObjectStream))
  | failed (st : MetabaseState) (batches : List (List ObjectStream))
  | outOfFuel (st : MetabaseState) (batches : List (List ObjectStream))
deriving DecidableEq

/-- Final store of a `GCResult`. -/
def GCResult.state : GCResult → MetabaseState
  | .done st _ => st
  | .failed st _ => st
  | .outOfFuel st _ => st

/-- Pages recorded by a `GCResult`. -/
def GCResult.batches : GCResult → List (List ObjectStream)
  | .done _ bs => bs
  | .failed _ bs => bs
  | .outOfFuel _ bs => bs

/-- Model of `DB.deleteObjectsAndSegmentsBatch` with the page closure of
the two passes inlined (the closure runs the page query for `pred`, logs
and collects the scanned streams into `last`/the page list, then calls
`deleteObjectsAndSegments`): starting from `cursor`, select a page, delete
it, return the batch error if any (which ends the pass), stop when the
last scanned stream is the zero value (empty page), else loop with the
cursor advanced to the last scanned stream. `failsAt b i` makes statement
`i` of batch number `b` fail. -/
def deleteObjectsAndSegmentsBatch (pred : ObjectRow → Bool)
    (failsAt : Nat → Nat → Bool) (batchsize : Nat) :
    Nat → ObjectStream → MetabaseState → Nat → GCResult
  | 0, _, st, _ => .outOfFuel st []
  | fuel + 1, cursor, st, batchIdx =>
    let page := selectPage pred cursor batchsize st.objects
    let streams := page.map (·.stream)
    let del := deleteObjectsAndSegments (failsAt batchIdx) st streams
    if del.2.2.2 then .failed del.1 [streams]
    else
      let last := streams.getLastD ObjectStream.zero
      if last.streamID = 0 then
        .done del.1 (if streams.isEmpty then [] else [streams])
      else
        match deleteObjectsAndSegmentsBatch pred failsAt batchsize fuel last del.1 (batchIdx + 1) with
        | .done st3 bs => .done st3 (streams :: bs)
        | .failed st3 bs => .failed st3 (streams :: bs)
        | .outOfFuel st3 bs => .outOfFuel st3 (streams :: bs)

/-- Modelled from the spec: `intLimitRange(1000).Ensure(&batchsize)` comes
from a helper not present in the sources; as a limit range it replaces a
batch size outside 1..1000 by 1000 (a batch size within the range, such as
the spec scenarios' `BatchSize=2`, is kept). -/
def ensureBatchsize (v : Nat) : Nat :=
  if v = 0 ∨ v > 1000 then 1000 else v

/-- Model of `DB.DeleteExpiredObjects`: the batch loop with the
expired-object page query (`expires_at < ExpiredBefore`, no status
condition), starting from the zero cursor. -/
def DeleteExpiredObjects (expiredBefore : Int) (failsAt : Nat → Nat → Bool)
    (fuel batchsize : Nat) (st : MetabaseState) : GCResult :=
  deleteObjectsAndSegmentsBatch (expiredPred expiredBefore) failsAt
    (ensureBatchsize batchsize) fuel ObjectStream.zero st 0

/-- Model of `DB.DeleteZombieObjects`: the batch loop with the
zombie-object page query
(`status = pendingStatus AND zombie_deletion_deadline < DeadlineBefore`),
starting from the zero cursor. -/
def DeleteZombieObjects (deadlineBefore : Int) (failsAt : Nat → Nat → Bool)
    (fuel batchsize : Nat) (st : MetabaseState) : GCResult :=
  deleteObjectsAndSegmentsBatch (zombiePred deadlineBefore) failsAt
    (ensureBatchsize batchsize) fuel ObjectStream.zero st 0

/-! ### Order facts about the key tuple -/

theorem keyLt_trans {a b c : ObjectStream} (h1 : keyLt a b) (h2 : keyLt b c) :
    keyLt a c := by
  unfold keyLt at *; omega

theorem keyLt_asymm {a b : ObjectStream} (h : keyLt a b) : ¬ keyLt b a := by
  unfold keyLt at *; omega

theorem keyLt_irrefl (a : ObjectStream) : ¬ keyLt a a := by
  unfold keyLt; omega

theorem keyLt_trichotomy (a b : ObjectStream) :
    keyLt a b ∨ sameKey a b ∨ keyLt b a := by
  unfold keyLt sameKey; omega

theorem sameKey_refl (a : ObjectStream) : sameKey a a := by
  unfold sameKey; omega

theorem sameKey_symm {a b : ObjectStream} (h : sameKey a b) : sameKey b a := by
  unfold sameKey at *; omega

theorem sameKey_keyLt {a b c : ObjectStream} (h : sameKey a b)
    (h2 : keyLt b c) : keyLt a c := by
  unfold keyLt sameKey at *; omega

/-! ### The page query -/


theorem minMatchRow_mem {pred : ObjectRow → Bool} {cursor : ObjectStream} :
    ∀ {rows : List ObjectRow} {r : ObjectRow},
      minMatchRow pred cursor rows = some r →
      r ∈ rows ∧ pred r = true ∧ keyLt cursor r.stream := by
  intro rows
  induction rows with
  | nil => intro r h; simp [minMatchRow] at h
  | cons x xs ih =>
    intro r h
    by_cases hx : pred x = true ∧ keyLt cursor x.stream
    · rw [minMatchRow, if_pos hx] at h
      cases hmm : minMatchRow pred cursor xs with
      | none =>
        simp only [hmm] at h
        cases h
        exact ⟨List.mem_cons_self _ _, hx.1, hx.2⟩
      | some m' =>
        simp only [hmm] at h
        by_cases hk : keyLt x.stream m'.stream
        · rw [if_pos hk] at h
          cases h
          exact ⟨List.mem_cons_self _ _, hx.1, hx.2⟩
        · rw [if_neg hk] at h
          cases h
          obtain ⟨h1, h2, h3⟩ := ih hmm
          exact ⟨List.mem_cons_of_mem _ h1, h2, h3⟩
    · rw [minMatchRow, if_neg hx] at h
      obtain ⟨h1, h2, h3⟩ := ih h
      exact ⟨List.mem_cons_of_mem _ h1, h2, h3⟩

theorem minMatchRow_none {pred : ObjectRow → Bool} {cursor : ObjectStream} :
    ∀ {rows : List ObjectRow}, minMatchRow pred cursor rows = none →
      ∀ s ∈ rows, ¬ (pred s = true ∧ keyLt cursor s.stream) := by
  intro rows
  induction rows with
  | nil => intro _ s hs; cases hs
  | cons x xs ih =>
    intro h s hs
    by_cases hx : pred x = true ∧ keyLt cursor x.stream
    · rw [minMatchRow, if_pos hx] at h
      cases hmm : minMatchRow pred cursor xs with
      | none => simp only [hmm] at h; cases h
      | some m' =>
        simp only [hmm] at h
        by_cases hk : keyLt x.stream m'.stream
        · rw [if_pos hk] at h; cases h
        · rw [if_neg hk] at h; cases h
    · rw [minMatchRow, if_neg hx] at h
      rcases List.mem_cons.1 hs with rfl | hs'
      · exact hx
      · exact ih h s hs'

theorem minMatchRow_min {pred : ObjectRow → Bool} {cursor : ObjectStream} :
    ∀ {rows : List ObjectRow} {r : ObjectRow},
      minMatchRow pred cursor rows = some r →
      ∀ s ∈ rows, pred s = true → keyLt cursor s.stream →
        ¬ keyLt s.stream r.stream := by
  intro rows
  induction rows with
  | nil => intro r h; simp [minMatchRow] at h
  | cons x xs ih =>
    intro r h s hs hps hcs
    by_cases hx : pred x = true ∧ keyLt cursor x.stream
    · rw [minMatchRow, if_pos hx] at h
      cases hmm : minMatchRow pred cursor xs with
      | none =>
        simp only [hmm] at h
        cases h
        rcases List.mem_cons.1 hs with rfl | hs'
        · exact keyLt_irrefl _
        · exact absurd ⟨hps, hcs⟩ (minMatchRow_none hmm s hs')
      | some m' =>
        simp only [hmm] at h
        by_cases hk : keyLt x.stream m'.stream
        · rw [if_pos hk] at h
          cases h
          rcases List.mem_cons.1 hs with rfl | hs'
          · exact keyLt_irrefl _
          · intro hlt
            exact ih hmm s hs' hps hcs (keyLt_trans hlt hk)
        · rw [if_neg hk] at h
          cases h
          rcases List.mem_cons.1 hs with rfl | hs'
          · exact hk
          · exact ih hmm s hs' hps hcs
    · rw [minMatchRow, if_neg hx] at h
      rcases List.mem_cons.1 hs with rfl | hs'
      · exact absurd ⟨hps, hcs⟩ hx
      · exact ih h s hs' hps hcs

theorem minMatchRow_eq_none {pred : ObjectRow → Bool} {cursor : ObjectStream}
    {rows : List ObjectRow}
    (h : ∀ s ∈ rows, ¬ (pred s = true ∧ keyLt cursor s.stream)) :
    minMatchRow pred cursor rows = none := by
  induction rows with
  | nil => rfl
  | cons x xs ih =>
    rw [minMatchRow, if_neg (h x (List.mem_cons_self _ _))]
    exact ih (fun s hs => h s (List.mem_cons_of_mem _ hs))

theorem selectPage_mem {pred : ObjectRow → Bool} :
    ∀ {n : Nat} {cursor : ObjectStream} {rows : List ObjectRow} {r : ObjectRow},
      r ∈ selectPage pred cursor n rows →
      r ∈ rows ∧ pred r = true ∧ keyLt cursor r.stream := by
  intro n
  induction n with
  | zero => intro cursor rows r h; simp [selectPage] at h
  | succ n ih =>
    intro cursor rows r h
    rw [selectPage] at h
    cases hmm : minMatchRow pred cursor rows with
    | none => simp only [hmm] at h; cases h
    | some m =>
      simp only [hmm] at h
      obtain ⟨hm1, hm2, hm3⟩ := minMatchRow_mem hmm
      rcases List.mem_cons.1 h with rfl | h2
      · exact ⟨hm1, hm2, hm3⟩
      · obtain ⟨h1, h2', h3⟩ := ih h2
        exact ⟨h1, h2', keyLt_trans hm3 h3⟩

theorem selectPage_chain {pred : ObjectRow → Bool} :
    ∀ {n : Nat} {cursor : ObjectStream} {rows : List ObjectRow},
      List.Chain' (fun a b : ObjectRow => keyLt a.stream b.stream)
        (selectPage pred cursor n rows) := by
  intro n
  induction n with
  | zero => intro cursor rows; simp [selectPage]
  | succ n ih =>
    intro cursor rows
    rw [selectPage]
    cases hmm : minMatchRow pred cursor rows with
    | none => simp
    | some m =>
      rw [List.chain'_cons']
      refine ⟨?_, ih⟩
      intro y hy
      have hmem : y ∈ selectPage pred m.stream n rows := List.mem_of_mem_head? hy
      exact (selectPage_mem hmem).2.2

theorem selectPage_length {pred : ObjectRow → Bool} :
    ∀ {n : Nat} {cursor : ObjectStream} {rows : List ObjectRow},
      (selectPage pred cursor n rows).length ≤ n := by
  intro n
  induction n with
  | zero => intro cursor rows; simp [selectPage]
  | succ n ih =>
    intro cursor rows
    rw [selectPage]
    cases minMatchRow pred cursor rows with
    | none => simp
    | some m => simpa using ih

theorem selectPage_eq_nil {pred : ObjectRow → Bool} {cursor : ObjectStream}
    {rows : List ObjectRow} {n : Nat} (hn : 1 ≤ n)
    (h : selectPage pred cursor n rows = []) :
    ∀ s ∈ rows, ¬ (pred s = true ∧ keyLt cursor s.stream) := by
  cases n with
  | zero => omega
  | succ n =>
    rw [selectPage] at h
    cases hmm : minMatchRow pred cursor rows with
    | none => exact minMatchRow_none hmm
    | some m => simp only [hmm] at h; cases h

theorem selectPage_nil_of_noMatch {pred : ObjectRow → Bool}
    {cursor : ObjectStream} {rows : List ObjectRow}
    (h : ∀ s ∈ rows, ¬ (pred s = true ∧ keyLt cursor s.stream)) (n : Nat) :
    selectPage pred cursor n rows = [] := by
  cases n with
  | zero => rfl
  | succ n => rw [selectPage, minMatchRow_eq_none h]

theorem selectPage_complete {pred : ObjectRow → Bool} :
    ∀ {n : Nat} {cursor : ObjectStream} {rows : List ObjectRow},
      rows.Pairwise (fun a b => ¬ sameKey a.stream b.stream) →
      ∀ {s : ObjectRow}, s ∈ rows → pred s = true → keyLt cursor s.stream →
      ∀ {last : ObjectRow},
        (selectPage pred cursor n rows).getLast? = some last →
        ¬ keyLt last.stream s.stream →
        s ∈ selectPage pred cursor n rows := by
  intro n
  induction n with
  | zero =>
    intro cursor rows _ s _ _ _ last hlast
    simp [selectPage] at hlast
  | succ n ih =>
    intro cursor rows hpair s hs hps hcs last hlast hle
    rw [selectPage] at hlast ⊢
    cases hmm : minMatchRow pred cursor rows with
    | none => simp only [hmm] at hlast; simp at hlast
    | some m =>
      simp only [hmm] at hlast ⊢
      have hmin := minMatchRow_min hmm s hs hps hcs
      obtain ⟨hm1, hm2, hm3⟩ := minMatchRow_mem hmm
      rcases keyLt_trichotomy s.stream m.stream with hlt | hsame | hgt
      · exact absurd hlt hmin
      · -- same key tuple: with pairwise-distinct keys, s = m
        by_cases heq : s = m
        · subst heq; exact List.mem_cons_self _ _
        · have hsymm : Symmetric (fun a b : ObjectRow => ¬ sameKey a.stream b.stream) :=
            fun a b hab h => hab (sameKey_symm h)
          exact absurd hsame (hpair.forall hsymm hs hm1 heq)
      · -- s is strictly beyond m: look in the tail page
        cases htail : selectPage pred m.stream n rows with
        | nil =>
          rw [htail] at hlast
          simp at hlast
          subst hlast
          exact absurd hgt hle
        | cons t ts =>
          rw [htail, List.getLast?_cons_cons] at hlast
          have hmemtail : s ∈ selectPage pred m.stream n rows :=
            ih hpair hs hps hgt (by rw [htail]; exact hlast) hle
          exact List.mem_cons_of_mem _ (htail ▸ hmemtail)

/-- The last element of a sorted page is maximal among the page. -/
theorem chain_getLast_max :
    ∀ (page : List ObjectRow) (h : page ≠ []) (p : ObjectRow), p ∈ page →
      List.Chain' (fun a b : ObjectRow => keyLt a.stream b.stream) page →
      p = page.getLast h ∨ keyLt p.stream (page.getLast h).stream := by
  intro page
  induction page with
  | nil => intro h; cases h rfl
  | cons x xs ih =>
    intro h p hp hchain
    cases xs with
    | nil =>
      rcases List.mem_cons.1 hp with rfl | hp'
      · left; rfl
      · cases hp'
    | cons y ys =>
      rw [List.getLast_cons_cons]
      have hchain' := (List.chain'_cons'.1 hchain).2
      have hxy : keyLt x.stream y.stream := by
        have := (List.chain'_cons'.1 hchain).1
        exact this y rfl
      rcases List.mem_cons.1 hp with rfl | hp'
      · right
        rcases ih (by simp) y (List.mem_cons_self _ _) hchain' with he | hlt
        · rw [← he]; exact hxy
        · exact keyLt_trans hxy hlt
      · exact ih (by simp) p hp' hchain'

/-- `getLastD` on a mapped non-empty page is the last row's stream. -/
theorem map_stream_getLastD :
    ∀ (page : List ObjectRow) (h : page ≠ []),
      (page.map (fun r => r.stream)).getLastD ObjectStream.zero =
        (page.getLast h).stream := by
  intro page
  induction page with
  | nil => intro h; cases h rfl
  | cons x xs ih =>
    intro h
    cases xs with
    | nil => rfl
    | cons y ys =>
      rw [List.getLast_cons_cons]
      have := ih (by simp)
      simpa using this

/-! ### The pipelined batch executor -/

/-- Combined effect of one committed deletion unit: delete the object row
(keyed by key tuple and stream id) and all segment rows with the stream id. -/
def applyUnit (st : MetabaseState) (obj : ObjectStream) : MetabaseState :=
  (applyDeleteSegments (applyDeleteObject st obj).1 obj.streamID).1

/-- Effect of committing every unit of the batch, in order. -/
def applyUnits (st : MetabaseState) (objs : List ObjectStream) : MetabaseState :=
  objs.foldl applyUnit st

/-- Whether an object row is hit by the conditional object-row delete of the
unit for `o`: same key tuple and same stream id. -/
def objHit (o : ObjectStream) (r : ObjectRow) : Bool :=
  decide (sameKey r.stream o) && r.stream.streamID == o.streamID

theorem applyUnit_objects (st : MetabaseState) (o : ObjectStream) :
    (applyUnit st o).objects = st.objects.filter (fun r => !(objHit o r)) := rfl

theorem applyUnit_segments (st : MetabaseState) (o : ObjectStream) :
    (applyUnit st o).segments =
      st.segments.filter (fun g => !(g.streamID == o.streamID)) := rfl

theorem applyUnits_objects (objs : List ObjectStream) :
    ∀ (st : MetabaseState),
      (applyUnits st objs).objects =
        st.objects.filter (fun r => !(objs.any (fun o => objHit o r))) := by
  induction objs with
  | nil => intro st; simp [applyUnits]
  | cons o rest ih =>
    intro st
    have h1 : applyUnits st (o :: rest) = applyUnits (applyUnit st o) rest := rfl
    rw [h1, ih, applyUnit_objects, List.filter_filter]
    refine List.filter_congr ?_
    intro r _
    simp [List.any_cons, Bool.not_or, Bool.and_comm]

theorem applyUnits_segments (objs : List ObjectStream) :
    ∀ (st : MetabaseState),
      (applyUnits st objs).segments =
        st.segments.filter
          (fun g => !(objs.any (fun o => g.streamID == o.streamID))) := by
  induction objs with
  | nil => intro st; simp [applyUnits]
  | cons o rest ih =>
    intro st
    have h1 : applyUnits st (o :: rest) = applyUnits (applyUnit st o) rest := rfl
    rw [h1, ih, applyUnit_segments, List.filter_filter]
    refine List.filter_congr ?_
    intro g _
    simp [List.any_cons, Bool.not_or, Bool.and_comm]

/-- Committed-store effect of the batch under a failure oracle: unit `k`
(whose statements sit at indices `4k .. 4k+3`, the two deletes at
`4k+1`, `4k+2`) commits exactly when neither of its deletes fails, and a
unit that commits applies both of its deletes; a unit that fails leaves
the committed store untouched. -/
def applyUnitsFrom (failsAt : Nat → Bool) :
    Nat → MetabaseState → List ObjectStream → MetabaseState
  | _, st, [] => st
  | i, st, o :: rest =>
    applyUnitsFrom failsAt (i + 4)
      (if failsAt (i + 1) || failsAt (i + 2) then st else applyUnit st o) rest

/-- Per-statement results of one unit whose `START TRANSACTION` sits at
index `i`, executed against working store `st`. -/
def unitResults (failsAt : Nat → Bool) (i : Nat) (st : MetabaseState)
    (o : ObjectStream) : List (Option Nat) :=
  if failsAt (i + 1) then [some 0, none, none, some 0]
  else if failsAt (i + 2) then
    [some 0, some (applyDeleteObject st o).2, none, some 0]
  else
    [some 0, some (applyDeleteObject st o).2,
     some (applyDeleteSegments (applyDeleteObject st o).1 o.streamID).2, some 0]

/-- Per-statement results of the whole batch. -/
def batchResults (failsAt : Nat → Bool) :
    Nat → MetabaseState → List ObjectStream → List (Option Nat)
  | _, _, [] => []
  | i, st, o :: rest =>
    unitResults failsAt i st o ++
      batchResults failsAt (i + 4)
        (if failsAt (i + 1) || failsAt (i + 2) then st else applyUnit st o) rest

theorem execStmts_unit (failsAt : Nat → Bool) (i : Nat) (st : MetabaseState)
    (ab : Bool) (o : ObjectStream) (rest : List Stmt) :
    execStmts failsAt i ⟨st, none, ab⟩ (unitStmts o ++ rest) =
      ((execStmts failsAt (i + 4)
          ⟨if failsAt (i + 1) || failsAt (i + 2) then st else applyUnit st o,
           none, false⟩ rest).1,
       unitResults failsAt i st o ++
         (execStmts failsAt (i + 4)
            ⟨if failsAt (i + 1) || failsAt (i + 2) then st else applyUnit st o,
             none, false⟩ rest).2) := by
  cases h1 : failsAt (i + 1) <;> cases h2 : failsAt (i + 2) <;>
    simp [unitStmts, execStmts, execStmt, unitResults, h1, h2, applyUnit,
      Nat.add_assoc]

theorem execStmts_buildBatch (failsAt : Nat → Bool) :
    ∀ (objs : List ObjectStream) (i : Nat) (st : MetabaseState) (ab : Bool),
      (execStmts failsAt i ⟨st, none, ab⟩ (buildBatch objs)).1.committed =
          applyUnitsFrom failsAt i st objs ∧
        (execStmts failsAt i ⟨st, none, ab⟩ (buildBatch objs)).2 =
          batchResults failsAt i st objs := by
  intro objs
  induction objs with
  | nil => intro i st ab; exact ⟨rfl, rfl⟩
  | cons o rest ih =>
    intro i st ab
    have hbb : buildBatch (o :: rest) = unitStmts o ++ buildBatch rest := rfl
    rw [hbb, execStmts_unit]
    refine ⟨?_, ?_⟩
    · exact (ih (i + 4) _ false).1
    · exact congrArg _ (ih (i + 4) _ false).2

/-- Claim C4 core: the committed store after `deleteObjectsAndSegments` is
the per-unit all-or-nothing fold. -/
theorem deleteObjectsAndSegments_committed (failsAt : Nat → Bool)
    (st : MetabaseState) (objs : List ObjectStream) :
    (deleteObjectsAndSegments failsAt st objs).1 =
      applyUnitsFrom failsAt 0 st objs := by
  cases objs with
  | nil => rfl
  | cons o rest =>
    unfold deleteObjectsAndSegments
    rw [if_neg (by simp)]
    exact (execStmts_buildBatch failsAt (o :: rest) 0 st false).1

theorem applyUnitsFrom_noFail :
    ∀ (objs : List ObjectStream) (i : Nat) (st : MetabaseState),
      applyUnitsFrom (fun _ => false) i st objs = applyUnits st objs := by
  intro objs
  induction objs with
  | nil => intro i st; rfl
  | cons o rest ih =>
    intro i st
    simp only [applyUnitsFrom, Bool.or_self, Bool.false_eq_true, if_false]
    exact ih (i + 4) (applyUnit st o)

theorem batchResults_noFail_all_isSome :
    ∀ (objs : List ObjectStream) (i : Nat) (st : MetabaseState),
      (batchResults (fun _ => false) i st objs).all (fun r => r.isSome) = true := by
  intro objs
  induction objs with
  | nil => intro i st; rfl
  | cons o rest ih =>
    intro i st
    simp only [batchResults, List.all_append, Bool.and_eq_true]
    refine ⟨?_, ?_⟩
    · simp [unitResults]
    · simpa using ih (i + 4) _

theorem deleteObjectsAndSegments_noFail_state (st : MetabaseState)
    (objs : List ObjectStream) :
    (deleteObjectsAndSegments (fun _ => false) st objs).1 =
      applyUnits st objs := by
  rw [deleteObjectsAndSegments_committed, applyUnitsFrom_noFail]

theorem deleteObjectsAndSegments_noFail_noErr (st : MetabaseState)
    (objs : List ObjectStream) :
    (deleteObjectsAndSegments (fun _ => false) st objs).2.2.2 = false := by
  cases objs with
  | nil => rfl
  | cons o rest =>
    unfold deleteObjectsAndSegments
    rw [if_neg (by simp)]
    simp only []
    rw [(execStmts_buildBatch (fun _ => false) (o :: rest) 0 st false).2]
    have hall := batchResults_noFail_all_isSome (o :: rest) 0 st
    rw [List.all_eq_true] at hall
    rw [List.any_eq_false]
    intro r hr
    have hs := hall r hr
    cases r with
    | none => simp at hs
    | some v => simp

/-! ### Counting helpers for the loop measure -/

theorem countP_lt_of_witness {α : Type} {p q : α → Bool} :
    ∀ {l : List α}, (∀ a ∈ l, p a = true → q a = true) →
      ∀ {x : α}, x ∈ l → q x = true → p x = false →
        l.countP p < l.countP q := by
  intro l
  induction l with
  | nil => intro _ x hx; cases hx
  | cons a t ih =>
    intro hpq x hx hqx hpx
    rw [List.countP_cons, List.countP_cons]
    rcases List.mem_cons.1 hx with rfl | hx'
    · have hmono : t.countP p ≤ t.countP q :=
        List.countP_mono_left (fun b hb => hpq b (List.mem_cons_of_mem _ hb))
      rw [hpx, hqx]
      have h0 : (if (false = true) then 1 else 0) = 0 := by simp
      have h1 : (if (true = true) then 1 else 0) = 1 := by simp
      rw [h0, h1]
      omega
    · have hlt := ih (fun b hb => hpq b (List.mem_cons_of_mem _ hb)) hx' hqx hpx
      have hhead : p a = true → q a = true := hpq a (List.mem_cons_self _ _)
      cases hpa : p a with
      | false => cases q a <;> simp <;> omega
      | true => rw [hhead hpa]; simp; omega

/-- Number of rows matching the pass predicate strictly above the cursor:
the loop measure. -/
def matchingCount (pred : ObjectRow → Bool) (c : ObjectStream)
    (st : MetabaseState) : Nat :=
  st.objects.countP (fun r => pred r && decide (keyLt c r.stream))

/-- The store with every object row matching the predicate above the cursor
removed, and every segment row whose stream id belongs to such an object
removed. -/
def gcFilteredState (pred : ObjectRow → Bool) (c : ObjectStream)
    (st : MetabaseState) : MetabaseState :=
  ⟨st.objects.filter (fun r => !(pred r && decide (keyLt c r.stream))),
   st.segments.filter (fun g => !(st.objects.any
     (fun r => pred r && decide (keyLt c r.stream) && g.streamID == r.stream.streamID)))⟩

theorem gcFilteredState_noMatch {pred : ObjectRow → Bool} {c : ObjectStream}
    {st : MetabaseState}
    (h : ∀ r ∈ st.objects, ¬ (pred r = true ∧ keyLt c r.stream)) :
    gcFilteredState pred c st = st := by
  have hobj : ∀ r ∈ st.objects, (pred r && decide (keyLt c r.stream)) = false := by
    intro r hr
    cases hp : pred r with
    | false => rfl
    | true =>
      rw [decide_eq_false (fun hk => h r hr ⟨hp, hk⟩)]
      rfl
  unfold gcFilteredState
  cases st with
  | mk os sg =>
    refine congrArg₂ MetabaseState.mk ?_ ?_
    · refine List.filter_eq_self.2 ?_
      intro r hr
      rw [hobj r hr]
      rfl
    · refine List.filter_eq_self.2 ?_
      intro g _
      have : (List.any os fun r =>
          pred r && decide (keyLt c r.stream) && g.streamID == r.stream.streamID) = false := by
        rw [List.any_eq_false]
        intro r hr
        rw [hobj r hr]
        simp
      rw [this]
      rfl

/-- If some scanned stream hits row `r` and key tuples are unique, `r` is a
page row itself. -/
theorem page_any_hit_mem {page rows : List ObjectRow} {r : ObjectRow}
    (hpair : rows.Pairwise (fun a b => ¬ sameKey a.stream b.stream))
    (hpage : ∀ q ∈ page, q ∈ rows) (hr : r ∈ rows)
    (h : (page.map (fun q => q.stream)).any (fun o => objHit o r) = true) :
    r ∈ page := by
  rw [List.any_eq_true] at h
  obtain ⟨o, ho, hhit⟩ := h
  rw [List.mem_map] at ho
  obtain ⟨q, hq, rfl⟩ := ho
  have hkey : sameKey r.stream q.stream := by
    rw [objHit, Bool.and_eq_true] at hhit
    exact of_decide_eq_true hhit.1
  by_cases heq : r = q
  · subst heq; exact hq
  · have hsymm : Symmetric (fun a b : ObjectRow => ¬ sameKey a.stream b.stream) :=
      fun a b hab h => hab (sameKey_symm h)
    exact absurd hkey (hpair.forall hsymm hr (hpage q hq) heq)

/-- A page row is hit by its own scanned stream. -/
theorem mem_any_hit {page : List ObjectRow} {r : ObjectRow} (hr : r ∈ page) :
    (page.map (fun q => q.stream)).any (fun o => objHit o r) = true := by
  rw [List.any_eq_true]
  refine ⟨r.stream, List.mem_map.2 ⟨r, hr, rfl⟩, ?_⟩
  simp [objHit, decide_eq_true (sameKey_refl r.stream)]

/-- Deleting a page advances the target filter: removing the page's rows and
then everything matching above the page's last key is the same as removing
everything matching above the old cursor. -/
theorem gcFilteredState_step (pred : ObjectRow → Bool) (c lastS : ObjectStream)
    (st : MetabaseState) (page : List ObjectRow)
    (hpair : st.objects.Pairwise (fun a b => ¬ sameKey a.stream b.stream))
    (hmem : ∀ q ∈ page, q ∈ st.objects ∧ pred q = true ∧ keyLt c q.stream)
    (hmax : ∀ q ∈ page, ¬ keyLt lastS q.stream)
    (hclast : keyLt c lastS)
    (hcomp : ∀ r ∈ st.objects, pred r = true → keyLt c r.stream →
      ¬ keyLt lastS r.stream → r ∈ page) :
    gcFilteredState pred lastS (applyUnits st (page.map (fun r => r.stream))) =
      gcFilteredState pred c st := by
  have hobj : (applyUnits st (page.map (fun r => r.stream))).objects.filter
      (fun r => !(pred r && decide (keyLt lastS r.stream))) =
      st.objects.filter (fun r => !(pred r && decide (keyLt c r.stream))) := by
    rw [applyUnits_objects, List.filter_filter]
    refine List.filter_congr ?_
    intro r hr
    by_cases hM : pred r = true ∧ keyLt c r.stream
    · by_cases hL : keyLt lastS r.stream
      · rw [hM.1, decide_eq_true hM.2, decide_eq_true hL]
        simp
      · have hpmem := hcomp r hr hM.1 hM.2 hL
        rw [mem_any_hit hpmem, hM.1, decide_eq_true hM.2]
        simp
    · have hanyF : ((page.map (fun q => q.stream)).any (fun o => objHit o r)) = false := by
        cases hany : ((page.map (fun q => q.stream)).any (fun o => objHit o r)) with
        | false => rfl
        | true =>
          have hmemp := page_any_hit_mem hpair (fun q hq => (hmem q hq).1) hr hany
          exact absurd ⟨(hmem r hmemp).2.1, (hmem r hmemp).2.2⟩ hM
      have hsecond : (pred r && decide (keyLt lastS r.stream)) = false := by
        cases hp : pred r with
        | false => rfl
        | true =>
          rw [decide_eq_false (fun hk => hM ⟨hp, keyLt_trans hclast hk⟩)]
          rfl
      have hrhs : (pred r && decide (keyLt c r.stream)) = false := by
        cases hp : pred r with
        | false => rfl
        | true =>
          rw [decide_eq_false (fun hk => hM ⟨hp, hk⟩)]
          rfl
      rw [hanyF, hsecond, hrhs]
      simp
  have hseg : (applyUnits st (page.map (fun r => r.stream))).segments.filter
      (fun g => !((applyUnits st (page.map (fun r => r.stream))).objects.any
        (fun r => pred r && decide (keyLt lastS r.stream) && g.streamID == r.stream.streamID))) =
      st.segments.filter (fun g => !(st.objects.any
        (fun r => pred r && decide (keyLt c r.stream) && g.streamID == r.stream.streamID))) := by
    rw [applyUnits_segments, applyUnits_objects, List.filter_filter]
    refine List.filter_congr ?_
    intro g _
    rw [← Bool.not_or]
    refine congrArg (fun b => !b) ?_
    rw [Bool.eq_iff_iff, Bool.or_eq_true, List.any_eq_true, List.any_eq_true,
      List.any_eq_true]
    constructor
    · rintro (⟨r, hrmem, hrprop⟩ | ⟨o, ho, hosid⟩)
      · have hrst : r ∈ st.objects := List.mem_of_mem_filter hrmem
        refine ⟨r, hrst, ?_⟩
        rw [Bool.and_eq_true, Bool.and_eq_true] at hrprop ⊢
        exact ⟨⟨hrprop.1.1,
          decide_eq_true (keyLt_trans hclast (of_decide_eq_true hrprop.1.2))⟩,
          hrprop.2⟩
      · obtain ⟨q, hq, rfl⟩ := List.mem_map.1 ho
        obtain ⟨hqst, hqp, hqc⟩ := hmem q hq
        refine ⟨q, hqst, ?_⟩
        rw [Bool.and_eq_true]
        refine ⟨?_, hosid⟩
        rw [hqp, decide_eq_true hqc]
        rfl
    · rintro ⟨r, hrst, hrprop⟩
      rw [Bool.and_eq_true, Bool.and_eq_true] at hrprop
      obtain ⟨⟨hrp, hrc⟩, hrsid⟩ := hrprop
      by_cases hL : keyLt lastS r.stream
      · left
        refine ⟨r, ?_, ?_⟩
        · rw [List.mem_filter]
          refine ⟨hrst, ?_⟩
          cases hany : ((page.map (fun q => q.stream)).any (fun o => objHit o r)) with
          | false => rfl
          | true =>
            have hmemp := page_any_hit_mem hpair (fun q hq => (hmem q hq).1) hrst hany
            exact absurd hL (hmax r hmemp)
        · rw [Bool.and_eq_true, Bool.and_eq_true]
          exact ⟨⟨hrp, decide_eq_true hL⟩, hrsid⟩
      · right
        have hrpage := hcomp r hrst hrp (of_decide_eq_true hrc) hL
        exact ⟨r.stream, List.mem_map.2 ⟨r, hrpage, rfl⟩, hrsid⟩
  unfold gcFilteredState
  rw [hobj, hseg]

/-- Deleting a non-empty page strictly decreases the number of matching
rows above the (advanced) cursor. -/
theorem matchingCount_step (pred : ObjectRow → Bool) (c lastS : ObjectStream)
    (st : MetabaseState) (page : List ObjectRow) (hne : page ≠ [])
    (hmem : ∀ q ∈ page, q ∈ st.objects ∧ pred q = true ∧ keyLt c q.stream)
    (hclast : keyLt c lastS) :
    matchingCount pred lastS (applyUnits st (page.map (fun r => r.stream))) <
      matchingCount pred c st := by
  unfold matchingCount
  rw [applyUnits_objects, List.countP_filter]
  obtain ⟨p0, ps, rfl⟩ := List.exists_cons_of_ne_nil hne
  have hp0 : p0 ∈ p0 :: ps := List.mem_cons_self _ _
  obtain ⟨hp0st, hp0p, hp0c⟩ := hmem p0 hp0
  refine countP_lt_of_witness ?_ hp0st ?_ ?_
  · intro a _ ha
    rw [Bool.and_eq_true, Bool.and_eq_true] at ha
    rw [Bool.and_eq_true]
    exact ⟨ha.1.1,
      decide_eq_true (keyLt_trans hclast (of_decide_eq_true ha.1.2))⟩
  · rw [hp0p, decide_eq_true hp0c]
    rfl
  · rw [mem_any_hit hp0]
    simp

theorem deleteObjectsAndSegments_nil (failsAt : Nat → Bool)
    (st : MetabaseState) : deleteObjectsAndSegments failsAt st [] =
      (st, 0, 0, false) := rfl

theorem batchLoop_succ (pred : ObjectRow → Bool) (failsAt : Nat → Nat → Bool)
    (bs fuel : Nat) (c : ObjectStream) (st : MetabaseState) (bi : Nat) :
    deleteObjectsAndSegmentsBatch pred failsAt bs (fuel + 1) c st bi =
      (let page := selectPage pred c bs st.objects
       let streams := page.map (fun r => r.stream)
       let del := deleteObjectsAndSegments (failsAt bi) st streams
       if del.2.2.2 then GCResult.failed del.1 [streams]
       else
         let last := streams.getLastD ObjectStream.zero
         if last.streamID = 0 then
           GCResult.done del.1 (if streams.isEmpty then [] else [streams])
         else
           match deleteObjectsAndSegmentsBatch pred failsAt bs fuel last del.1 (bi + 1) with
           | .done st3 bls => GCResult.done st3 (streams :: bls)
           | .failed st3 bls => GCResult.failed st3 (streams :: bls)
           | .outOfFuel st3 bls => GCResult.outOfFuel st3 (streams :: bls)) := rfl

/-- Main loop theorem (failure-free run): with enough fuel, the batch loop
reaches the empty page and the final store is exactly the old store with
every matching row above the cursor removed, together with such rows'
segments. -/
theorem gcLoop_noFail (pred : ObjectRow → Bool) (bs : Nat) (hbs : 1 ≤ bs) :
    ∀ (fuel : Nat) (c : ObjectStream) (st : MetabaseState) (bi : Nat),
      st.objects.Pairwise (fun a b => ¬ sameKey a.stream b.stream) →
      (∀ r ∈ st.objects, r.stream.streamID ≠ 0) →
      matchingCount pred c st < fuel →
      ∃ bls, deleteObjectsAndSegmentsBatch pred (fun _ _ => false) bs fuel c st bi =
        GCResult.done (gcFilteredState pred c st) bls := by
  intro fuel
  induction fuel with
  | zero => intro c st bi _ _ hf; exact absurd hf (by omega)
  | succ fuel ih =>
    intro c st bi hpair hsid hf
    rw [batchLoop_succ]
    cases hpage : selectPage pred c bs st.objects with
    | nil =>
      refine ⟨[], ?_⟩
      rw [gcFilteredState_noMatch (selectPage_eq_nil hbs hpage)]
      simp [deleteObjectsAndSegments_nil, ObjectStream.zero]
    | cons p ps =>
      have hne : p :: ps ≠ [] := List.cons_ne_nil _ _
      have hmem : ∀ q ∈ p :: ps, q ∈ st.objects ∧ pred q = true ∧ keyLt c q.stream := by
        intro q hq
        exact selectPage_mem (hpage ▸ hq)
      have hchain : List.Chain' (fun a b : ObjectRow => keyLt a.stream b.stream) (p :: ps) :=
        hpage ▸ selectPage_chain
      have hlastmem : (p :: ps).getLast hne ∈ p :: ps := List.getLast_mem hne
      obtain ⟨hlastst, hlastp, hlastc⟩ := hmem _ hlastmem
      have hmax : ∀ q ∈ p :: ps, ¬ keyLt ((p :: ps).getLast hne).stream q.stream := by
        intro q hq
        rcases chain_getLast_max (p :: ps) hne q hq hchain with he | hlt
        · rw [he]; exact keyLt_irrefl _
        · exact keyLt_asymm hlt
      have hlastq : (selectPage pred c bs st.objects).getLast? =
          some ((p :: ps).getLast hne) := by
        rw [hpage]
        exact List.getLast?_eq_getLast _ hne
      have hcomp : ∀ r ∈ st.objects, pred r = true → keyLt c r.stream →
          ¬ keyLt ((p :: ps).getLast hne).stream r.stream → r ∈ p :: ps := by
        intro r hr hrp hrc hrl
        have := selectPage_complete hpair hr hrp hrc hlastq hrl
        rwa [hpage] at this
      -- reduce the error test, the cursor value and the executor state
      simp only [deleteObjectsAndSegments_noFail_noErr, Bool.false_eq_true, if_false,
        map_stream_getLastD (p :: ps) hne, deleteObjectsAndSegments_noFail_state]
      rw [if_neg (hsid _ hlastst)]
      have hpair2 : (applyUnits st ((p :: ps).map (fun r => r.stream))).objects.Pairwise
          (fun a b => ¬ sameKey a.stream b.stream) := by
        rw [applyUnits_objects]
        exact List.Pairwise.sublist (List.filter_sublist _) hpair
      have hsid2 : ∀ r ∈ (applyUnits st ((p :: ps).map (fun r => r.stream))).objects,
          r.stream.streamID ≠ 0 := by
        rw [applyUnits_objects]
        intro r hr
        exact hsid r (List.mem_of_mem_filter hr)
      have hf2 : matchingCount pred ((p :: ps).getLast hne).stream
          (applyUnits st ((p :: ps).map (fun r => r.stream))) < fuel := by
        have hstep := matchingCount_step pred c ((p :: ps).getLast hne).stream st
          (p :: ps) hne hmem hlastc
        omega
      obtain ⟨bls, hrec⟩ := ih ((p :: ps).getLast hne).stream
        (applyUnits st ((p :: ps).map (fun r => r.stream))) (bi + 1) hpair2 hsid2 hf2
      rw [hrec, gcFilteredState_step pred c ((p :: ps).getLast hne).stream st (p :: ps)
        hpair hmem hmax hlastc hcomp]
      exact ⟨(p :: ps).map (fun r => r.stream) :: bls, rfl⟩

/-- A pass over a store with no matching row above the cursor completes at
once: empty page, no deletions, no batches. -/
theorem gcLoop_noMatch (pred : ObjectRow → Bool) (bs fuel : Nat)
    (c : ObjectStream) (st : MetabaseState) (bi : Nat)
    (h : ∀ r ∈ st.objects, ¬ (pred r = true ∧ keyLt c r.stream)) :
    deleteObjectsAndSegmentsBatch pred (fun _ _ => false) bs (fuel + 1) c st bi =
      GCResult.done st [] := by
  rw [batchLoop_succ, selectPage_nil_of_noMatch h bs]
  simp [deleteObjectsAndSegments_nil, ObjectStream.zero]

theorem getLastD_mem {α : Type} :
    ∀ (l : List α) (d : α), l ≠ [] → l.getLastD d ∈ l := by
  intro l
  induction l with
  | nil => intro d h; cases h rfl
  | cons x xs ih =>
    intro d h
    cases xs with
    | nil => exact List.mem_cons_self _ _
    | cons y ys => exact List.mem_cons_of_mem _ (ih d (by simp))

theorem streams_chain (pred : ObjectRow → Bool) (cursor : ObjectStream)
    (n : Nat) (rows : List ObjectRow) :
    List.Chain' keyLt ((selectPage pred cursor n rows).map (fun r => r.stream)) := by
  rw [List.chain'_map]
  exact selectPage_chain

theorem streams_mem_gt (pred : ObjectRow → Bool) (cursor : ObjectStream)
    (n : Nat) (rows : List ObjectRow) :
    ∀ o ∈ (selectPage pred cursor n rows).map (fun r => r.stream),
      keyLt cursor o := by
  intro o ho
  obtain ⟨q, hq, rfl⟩ := List.mem_map.1 ho
  exact (selectPage_mem hq).2.2

/-- The scanned streams of one page query. -/
def pageStreams (pred : ObjectRow → Bool) (c : ObjectStream) (bs : Nat)
    (st : MetabaseState) : List ObjectStream :=
  (selectPage pred c bs st.objects).map (fun r => r.stream)

theorem batchLoopUnfold (pred : ObjectRow → Bool) (failsAt : Nat → Nat → Bool)
    (bs fuel : Nat) (c : ObjectStream) (st : MetabaseState) (bi : Nat) :
    deleteObjectsAndSegmentsBatch pred failsAt bs (fuel + 1) c st bi =
      (if (deleteObjectsAndSegments (failsAt bi) st (pageStreams pred c bs st)).2.2.2 then
        GCResult.failed
          (deleteObjectsAndSegments (failsAt bi) st (pageStreams pred c bs st)).1
          [pageStreams pred c bs st]
      else if ((pageStreams pred c bs st).getLastD ObjectStream.zero).streamID = 0 then
        GCResult.done
          (deleteObjectsAndSegments (failsAt bi) st (pageStreams pred c bs st)).1
          (if (pageStreams pred c bs st).isEmpty then [] else [pageStreams pred c bs st])
      else
        match deleteObjectsAndSegmentsBatch pred failsAt bs fuel
            ((pageStreams pred c bs st).getLastD ObjectStream.zero)
            (deleteObjectsAndSegments (failsAt bi) st (pageStreams pred c bs st)).1
            (bi + 1) with
        | .done st3 bls => GCResult.done st3 (pageStreams pred c bs st :: bls)
        | .failed st3 bls => GCResult.failed st3 (pageStreams pred c bs st :: bls)
        | .outOfFuel st3 bls => GCResult.outOfFuel st3 (pageStreams pred c bs st :: bls)) :=
  rfl

/-- Every run of the batch loop, failing or not, visits objects in strictly
ascending key-tuple order, all strictly above the starting cursor: the
flattened sequence of scanned pages is a strict chain. -/
theorem gcLoop_batches_sorted (pred : ObjectRow → Bool)
    (failsAt : Nat → Nat → Bool) (bs : Nat) :
    ∀ (fuel : Nat) (c : ObjectStream) (st : MetabaseState) (bi : Nat),
      List.Chain' keyLt
        ((deleteObjectsAndSegmentsBatch pred failsAt bs fuel c st bi).batches).flatten ∧
      ∀ o ∈ ((deleteObjectsAndSegmentsBatch pred failsAt bs fuel c st bi).batches).flatten,
        keyLt c o := by
  intro fuel
  induction fuel with
  | zero =>
    intro c st bi
    exact ⟨by simp [deleteObjectsAndSegmentsBatch, GCResult.batches], by
      simp [deleteObjectsAndSegmentsBatch, GCResult.batches]⟩
  | succ fuel ih =>
    intro c st bi
    rw [batchLoopUnfold]
    split
    · -- failed on this batch
      rw [GCResult.batches]
      simp only [List.flatten, List.append_nil]
      exact ⟨streams_chain pred c bs st.objects, streams_mem_gt pred c bs st.objects⟩
    · split
      · -- done: empty page (or zero sentinel)
        rw [GCResult.batches]
        split
        · simp
        · simp only [List.flatten, List.append_nil]
          exact ⟨streams_chain pred c bs st.objects, streams_mem_gt pred c bs st.objects⟩
      · -- recursive case
        rename_i hnz
        have hne : pageStreams pred c bs st ≠ [] := by
          intro hempty
          rw [hempty] at hnz
          exact hnz rfl
        have hlastmem := getLastD_mem (pageStreams pred c bs st) ObjectStream.zero hne
        have hclast : keyLt c ((pageStreams pred c bs st).getLastD ObjectStream.zero) :=
          streams_mem_gt pred c bs st.objects _ hlastmem
        split <;> rename_i st3 bls heq <;>
        · rw [GCResult.batches]
          have hih := ih ((pageStreams pred c bs st).getLastD ObjectStream.zero)
            (deleteObjectsAndSegments (failsAt bi) st (pageStreams pred c bs st)).1
            (bi + 1)
          rw [heq, GCResult.batches] at hih
          rw [List.flatten_cons]
          constructor
          · rw [List.chain'_append]
            refine ⟨streams_chain pred c bs st.objects, hih.1, ?_⟩
            intro x hx y hy
            rw [Option.mem_def] at hx
            have hxlast : x = (pageStreams pred c bs st).getLastD ObjectStream.zero := by
              rw [List.getLastD_eq_getLast?, hx]
              rfl
            rw [hxlast]
            exact hih.2 y (List.mem_of_mem_head? hy)
          · intro o ho
            rcases List.mem_append.1 ho with h1 | h2
            · exact streams_mem_gt pred c bs st.objects o h1
            · exact keyLt_trans hclast (hih.2 o h2)

theorem applyUnitsFrom_cons (failsAt : Nat → Bool) (i : Nat)
    (st : MetabaseState) (o : ObjectStream) (rest : List ObjectStream) :
    applyUnitsFrom failsAt i st (o :: rest) =
      applyUnitsFrom failsAt (i + 4)
        (if failsAt (i + 1) || failsAt (i + 2) then st else applyUnit st o)
        rest := rfl

theorem batchResults_cons (failsAt : Nat → Bool) (i : Nat)
    (st : MetabaseState) (o : ObjectStream) (rest : List ObjectStream) :
    batchResults failsAt i st (o :: rest) =
      unitResults failsAt i st o ++
        batchResults failsAt (i + 4)
          (if failsAt (i + 1) || failsAt (i + 2) then st else applyUnit st o)
          rest := rfl

theorem applyUnitsFrom_append (failsAt : Nat → Bool) :
    ∀ (l1 l2 : List ObjectStream) (i : Nat) (st : MetabaseState),
      applyUnitsFrom failsAt i st (l1 ++ l2) =
        applyUnitsFrom failsAt (i + 4 * l1.length)
          (applyUnitsFrom failsAt i st l1) l2 := by
  intro l1
  induction l1 with
  | nil => intro l2 i st; simp [applyUnitsFrom]
  | cons o rest ih =>
    intro l2 i st
    have h1 : (o :: rest) ++ l2 = o :: (rest ++ l2) := rfl
    rw [h1, applyUnitsFrom_cons, ih, applyUnitsFrom_cons]
    have harith : i + 4 + 4 * rest.length = i + 4 * (o :: rest).length := by
      rw [List.length_cons]
      omega
    rw [harith]

theorem batchResults_append (failsAt : Nat → Bool) :
    ∀ (l1 l2 : List ObjectStream) (i : Nat) (st : MetabaseState),
      batchResults failsAt i st (l1 ++ l2) =
        batchResults failsAt i st l1 ++
          batchResults failsAt (i + 4 * l1.length)
            (applyUnitsFrom failsAt i st l1) l2 := by
  intro l1
  induction l1 with
  | nil => intro l2 i st; simp [batchResults, applyUnitsFrom]
  | cons o rest ih =>
    intro l2 i st
    have h1 : (o :: rest) ++ l2 = o :: (rest ++ l2) := rfl
    rw [h1, batchResults_cons, ih, batchResults_cons, applyUnitsFrom_cons]
    have harith : i + 4 + 4 * rest.length = i + 4 * (o :: rest).length := by
      rw [List.length_cons]
      omega
    rw [harith, List.append_assoc]

theorem applyUnitsFrom_of_noFail (failsAt : Nat → Bool) :
    ∀ (l : List ObjectStream) (i : Nat) (st : MetabaseState),
      (∀ k, k < l.length →
        failsAt (i + 4 * k + 1) = false ∧ failsAt (i + 4 * k + 2) = false) →
      applyUnitsFrom failsAt i st l = applyUnits st l := by
  intro l
  induction l with
  | nil => intro i st _; rfl
  | cons o rest ih =>
    intro i st h
    have h0 := h 0 (by simp)
    have e1 : i + 4 * 0 + 1 = i + 1 := by omega
    have e2 : i + 4 * 0 + 2 = i + 2 := by omega
    rw [e1] at h0
    rw [e2] at h0
    rw [applyUnitsFrom_cons, h0.1, h0.2]
    have hstep : applyUnits st (o :: rest) = applyUnits (applyUnit st o) rest := rfl
    rw [hstep]
    simp only [Bool.or_self, Bool.false_eq_true, if_false]
    refine ih (i + 4) (applyUnit st o) ?_
    intro k hk
    have hx := h (k + 1) (by rw [List.length_cons]; omega)
    have e3 : i + 4 * (k + 1) + 1 = i + 4 + 4 * k + 1 := by omega
    have e4 : i + 4 * (k + 1) + 2 = i + 4 + 4 * k + 2 := by omega
    rw [e3] at hx
    rw [e4] at hx
    exact hx

theorem deleteObjectsAndSegments_err (failsAt : Nat → Bool) (st : MetabaseState)
    (objs : List ObjectStream) (h : objs ≠ []) :
    (deleteObjectsAndSegments failsAt st objs).2.2.2 =
      (batchResults failsAt 0 st objs).any (fun r => r.isNone) := by
  cases objs with
  | nil => cases h rfl
  | cons o rest =>
    have h1 : (deleteObjectsAndSegments failsAt st (o :: rest)).2.2.2 =
        ((execStmts failsAt 0 ⟨st, none, false⟩ (buildBatch (o :: rest))).2).any
          (fun r => r.isNone) := rfl
    rw [h1, (execStmts_buildBatch failsAt (o :: rest) 0 st false).2]

/-- Failure oracle failing exactly the object-row delete statement of unit
`j` of the batch. -/
def failOnlyStmt (j : Nat) : Nat → Bool := fun n => decide (n = 4 * j + 1)

/-- When unit `j` of a page fails, the committed result is precisely the
fold of every other unit, each applied in full; the failed unit's object
is untouched, and the batch reports an error. -/
theorem deleteOAS_skip_failed_unit (st : MetabaseState)
    (pre post : List ObjectStream) (oj : ObjectStream) :
    (deleteObjectsAndSegments (failOnlyStmt pre.length) st
        (pre ++ oj :: post)).1 = applyUnits st (pre ++ post) ∧
    (deleteObjectsAndSegments (failOnlyStmt pre.length) st
        (pre ++ oj :: post)).2.2.2 = true := by
  have hnofailpre : ∀ k, k < pre.length →
      failOnlyStmt pre.length (0 + 4 * k + 1) = false ∧
      failOnlyStmt pre.length (0 + 4 * k + 2) = false := by
    intro k hk
    exact ⟨decide_eq_false (by omega), decide_eq_false (by omega)⟩
  have hfailj : failOnlyStmt pre.length (0 + 4 * pre.length + 1) = true :=
    decide_eq_true (by omega)
  constructor
  · rw [deleteObjectsAndSegments_committed, applyUnitsFrom_append,
      applyUnitsFrom_cons, applyUnitsFrom_of_noFail _ pre 0 st hnofailpre, hfailj]
    simp only [Bool.true_or, if_true]
    rw [applyUnitsFrom_of_noFail]
    · have : applyUnits st (pre ++ post) = applyUnits (applyUnits st pre) post := by
        unfold applyUnits
        rw [List.foldl_append]
      rw [this]
    · intro k hk
      exact ⟨decide_eq_false (by omega), decide_eq_false (by omega)⟩
  · rw [deleteObjectsAndSegments_err _ _ _ (by simp), batchResults_append,
      batchResults_cons]
    rw [List.any_eq_true]
    refine ⟨none, ?_, rfl⟩
    refine List.mem_append.2 (Or.inr (List.mem_append.2 (Or.inl ?_)))
    rw [unitResults, if_pos hfailj]
    simp

theorem any_congr {α : Type} {f g : α → Bool} :
    ∀ {l : List α}, (∀ a ∈ l, f a = g a) → l.any f = l.any g := by
  intro l
  induction l with
  | nil => intro _; rfl
  | cons x xs ih =>
    intro h
    rw [List.any_cons, List.any_cons, h x (List.mem_cons_self _ _),
      ih (fun a ha => h a (List.mem_cons_of_mem _ ha))]

theorem ensureBatchsize_pos (v : Nat) : 1 ≤ ensureBatchsize v := by
  unfold ensureBatchsize
  split <;> omega

theorem gcFilteredState_objects (pred : ObjectRow → Bool) (c : ObjectStream)
    (st : MetabaseState) :
    (gcFilteredState pred c st).objects =
      st.objects.filter (fun r => !(pred r && decide (keyLt c r.stream))) := rfl

/-- At the zero cursor, when every row's key tuple is strictly positive,
the pass filter is just the predicate. -/
theorem gcFilteredState_zero (pred : ObjectRow → Bool) (st : MetabaseState)
    (hzero : ∀ r ∈ st.objects, keyLt ObjectStream.zero r.stream) :
    gcFilteredState pred ObjectStream.zero st =
      ⟨st.objects.filter (fun r => !(pred r)),
       st.segments.filter (fun g => !(st.objects.any
         (fun r => pred r && g.streamID == r.stream.streamID)))⟩ := by
  unfold gcFilteredState
  refine congrArg₂ MetabaseState.mk ?_ ?_
  · refine List.filter_congr ?_
    intro r hr
    rw [decide_eq_true (hzero r hr), Bool.and_true]
  · refine List.filter_congr ?_
    intro g _
    refine congrArg (fun b => !b) ?_
    refine any_congr ?_
    intro r hr
    rw [decide_eq_true (hzero r hr), Bool.and_true]

/-- The generic zero-cursor failure-free pass: deletes exactly the matching
rows and their segments. -/
theorem gcPass_zero_noFail (pred : ObjectRow → Bool) (fuel bs : Nat)
    (st : MetabaseState)
    (hpair : st.objects.Pairwise (fun a b => ¬ sameKey a.stream b.stream))
    (hsid : ∀ r ∈ st.objects, r.stream.streamID ≠ 0)
    (hzero : ∀ r ∈ st.objects, keyLt ObjectStream.zero r.stream)
    (hfuel : matchingCount pred ObjectStream.zero st < fuel) :
    ∃ bls, deleteObjectsAndSegmentsBatch pred (fun _ _ => false)
        (ensureBatchsize bs) fuel ObjectStream.zero st 0 =
      GCResult.done
        ⟨st.objects.filter (fun r => !(pred r)),
         st.segments.filter (fun g => !(st.objects.any
           (fun r => pred r && g.streamID == r.stream.streamID)))⟩ bls := by
  obtain ⟨bls, h⟩ := gcLoop_noFail pred (ensureBatchsize bs)
    (ensureBatchsize_pos bs) fuel ObjectStream.zero st 0 hpair hsid hfuel
  refine ⟨bls, ?_⟩
  rw [h, gcFilteredState_zero pred st hzero]

/-- A page whose delete unit errored aborts the pass: the loop returns the
error immediately, without attempting another batch. -/
theorem gcLoop_abort (pred : ObjectRow → Bool) (failsAt : Nat → Nat → Bool)
    (bs fuel : Nat) (c : ObjectStream) (st : MetabaseState) (bi : Nat)
    (h : (deleteObjectsAndSegments (failsAt bi) st
      (pageStreams pred c bs st)).2.2.2 = true) :
    deleteObjectsAndSegmentsBatch pred failsAt bs (fuel + 1) c st bi =
      GCResult.failed
        (deleteObjectsAndSegments (failsAt bi) st (pageStreams pred c bs st)).1
        [pageStreams pred c bs st] := by
  rw [batchLoopUnfold, if_pos h]

/-! ### Concrete fixtures for the end-to-end scenarios -/

/-- Fixture stream `i`: project id and stream id `i`, rest zero. -/
def mkStream (i : Nat) : ObjectStream := ⟨i, 0, 0, 0, i⟩

/-- Fixture object row over `mkStream i`. -/
def mkRow (i : Nat) (s : ObjectStatus) (exp zom : Option Int) : ObjectRow :=
  ⟨mkStream i, s, exp, zom⟩

/-- Scenario C store: five Committed objects, all expired before cutoff 1,
one segment each. -/
def stC7 : MetabaseState :=
  ⟨[mkRow 1 .committed (some 0) none, mkRow 2 .committed (some 0) none,
    mkRow 3 .committed (some 0) none, mkRow 4 .committed (some 0) none,
    mkRow 5 .committed (some 0) none],
   [⟨1, 0⟩, ⟨2, 0⟩, ⟨3, 0⟩, ⟨4, 0⟩, ⟨5, 0⟩]⟩

/-- A single Pending object whose ExpiresAt has lapsed. -/
def stC1x : MetabaseState := ⟨[mkRow 1 .pending (some 0) none], [⟨1, 0⟩]⟩

/-- Three expired Committed objects, one segment each. -/
def stC2x : MetabaseState :=
  ⟨[mkRow 1 .committed (some 0) none, mkRow 2 .committed (some 0) none,
    mkRow 3 .committed (some 0) none],
   [⟨1, 0⟩, ⟨2, 0⟩, ⟨3, 0⟩]⟩

/-- Two expired Committed objects, two segments each. -/
def stC3x : MetabaseState :=
  ⟨[mkRow 1 .committed (some 0) none, mkRow 2 .committed (some 0) none],
   [⟨1, 0⟩, ⟨1, 1⟩, ⟨2, 0⟩, ⟨2, 1⟩]⟩

/-- Two Pending multipart uploads: one with deadline 5 (not lapsed at
cutoff 1), one with deadline 0 (lapsed). -/
def stC8x : MetabaseState :=
  ⟨[mkRow 1 .pending none (some 5), mkRow 2 .pending none (some 0)],
   [⟨1, 0⟩, ⟨2, 0⟩]⟩

/-! ### The claims -/

/-- Claim C1, counterexample to the claim as stated: the expired-object
query has no status condition, so a Pending object whose ExpiresAt has
lapsed IS deleted by the expired-object pass. -/
theorem C1_counterexample :
    stC1x.objects = [mkRow 1 ObjectStatus.pending (some 0) none] ∧
    (mkRow 1 ObjectStatus.pending (some 0) none).status = ObjectStatus.pending ∧
    expiredPred 1 (mkRow 1 ObjectStatus.pending (some 0) none) = true ∧
    DeleteExpiredObjects 1 (fun _ _ => false) 2 10 stC1x =
      GCResult.done ⟨[], []⟩ [[mkStream 1]] := by decide

/-- Claim C1 (amended): a failure-free expired-object pass deletes exactly
the objects with a non-NULL ExpiresAt earlier than the cutoff — regardless
of Status — together with all segment rows sharing those objects'
StreamIDs. -/
theorem C1_expired_selection (cutoff : Int) (fuel bs : Nat)
    (st : MetabaseState)
    (hpair : st.objects.Pairwise (fun a b => ¬ sameKey a.stream b.stream))
    (hsid : ∀ r ∈ st.objects, r.stream.streamID ≠ 0)
    (hzero : ∀ r ∈ st.objects, keyLt ObjectStream.zero r.stream)
    (hfuel : matchingCount (expiredPred cutoff) ObjectStream.zero st < fuel) :
    ∃ bls, DeleteExpiredObjects cutoff (fun _ _ => false) fuel bs st =
      GCResult.done
        ⟨st.objects.filter (fun r => !(expiredPred cutoff r)),
         st.segments.filter (fun g => !(st.objects.any
           (fun r => expiredPred cutoff r && g.streamID == r.stream.streamID)))⟩
        bls :=
  gcPass_zero_noFail (expiredPred cutoff) fuel bs st hpair hsid hzero hfuel

/-- Witness for C1's amended theorem at a concrete one-object store. -/
theorem C1_expired_selection_witness :
    ∃ bls, DeleteExpiredObjects 1 (fun _ _ => false) 2 10 stC1x =
      GCResult.done
        ⟨stC1x.objects.filter (fun r => !(expiredPred 1 r)),
         stC1x.segments.filter (fun g => !(stC1x.objects.any
           (fun r => expiredPred 1 r && g.streamID == r.stream.streamID)))⟩
        bls :=
  C1_expired_selection 1 2 10 stC1x (by decide) (by decide) (by decide) (by decide)

/-- Claim C2, counterexample to the claim as stated: with three expired
objects, batch size 2, and an error on the first unit's object delete, the
pass returns the aggregated error after the first page: only one batch is
recorded, and the third object — which still matches the predicate — is
never visited. The cursor progress and the next batch that the claim
promises do not happen. -/
theorem C2_counterexample :
    DeleteExpiredObjects 1 (fun b i => b == 0 && i == 1) 10 2 stC2x =
      GCResult.failed
        ⟨[mkRow 1 .committed (some 0) none, mkRow 3 .committed (some 0) none],
         [⟨1, 0⟩, ⟨3, 0⟩]⟩
        [[mkStream 1, mkStream 2]] ∧
    expiredPred 1 (mkRow 3 .committed (some 0) none) = true := by decide

/-- Claim C2 (amended): the failure of one object's delete unit does not
abort the remaining units of its page — every other unit of the page is
still applied in full, and the failure only surfaces as the batch's
aggregated error — but that aggregated error then ends the pass: the loop
returns `failed` after the erroring page and no further batch is
attempted. -/
theorem C2_page_isolation_pass_abort (st : MetabaseState)
    (pre post : List ObjectStream) (oj : ObjectStream)
    (pred : ObjectRow → Bool) (failsAt : Nat → Nat → Bool) (bs fuel : Nat)
    (c : ObjectStream) (st0 : MetabaseState) (bi : Nat)
    (habort : (deleteObjectsAndSegments (failsAt bi) st0
      (pageStreams pred c bs st0)).2.2.2 = true) :
    (deleteObjectsAndSegments (failOnlyStmt pre.length) st
        (pre ++ oj :: post)).1 = applyUnits st (pre ++ post) ∧
    (deleteObjectsAndSegments (failOnlyStmt pre.length) st
        (pre ++ oj :: post)).2.2.2 = true ∧
    deleteObjectsAndSegmentsBatch pred failsAt bs (fuel + 1) c st0 bi =
      GCResult.failed
        (deleteObjectsAndSegments (failsAt bi) st0
          (pageStreams pred c bs st0)).1
        [pageStreams pred c bs st0] :=
  ⟨(deleteOAS_skip_failed_unit st pre post oj).1,
   (deleteOAS_skip_failed_unit st pre post oj).2,
   gcLoop_abort pred failsAt bs fuel c st0 bi habort⟩

/-- Witness for C2's amended theorem: the first unit of a two-object page
fails, the second is still applied; the erroring page makes the concrete
pass return `failed`. -/
theorem C2_page_isolation_pass_abort_witness :
    (deleteObjectsAndSegments (failOnlyStmt (List.length ([] : List ObjectStream)))
        stC2x (([] : List ObjectStream) ++ mkStream 1 :: [mkStream 2])).1 =
        applyUnits stC2x (([] : List ObjectStream) ++ [mkStream 2]) ∧
    (deleteObjectsAndSegments (failOnlyStmt (List.length ([] : List ObjectStream)))
        stC2x (([] : List ObjectStream) ++ mkStream 1 :: [mkStream 2])).2.2.2 = true ∧
    deleteObjectsAndSegmentsBatch (expiredPred 1) (fun b i => b == 0 && i == 1)
        2 (9 + 1) ObjectStream.zero stC2x 0 =
      GCResult.failed
        (deleteObjectsAndSegments ((fun b i => b == 0 && i == 1) 0) stC2x
          (pageStreams (expiredPred 1) ObjectStream.zero 2 stC2x)).1
        [pageStreams (expiredPred 1) ObjectStream.zero 2 stC2x] :=
  C2_page_isolation_pass_abort stC2x [] [mkStream 2] (mkStream 1) (expiredPred 1)
    (fun b i => b == 0 && i == 1) 2 9 ObjectStream.zero stC2x 0 (by decide)

/-- Claim C3, code bug: the result-accounting loop dispatches on `i % 3`
although each object queues four statements, so with two objects (each
owning one object row and two segment rows) the code marks
`object_delete` by 1 and `segment_delete` by 3, although 2 object rows and
4 segment rows were really deleted (the final store is empty): the second
object's row delete is attributed to segments and its segment delete is
dropped. The claim (increment by exactly N and M) matches the code's own
`case` labels, which name the unreachable `case 3` "commit transaction". -/
theorem C3_counter_accounting :
    deleteObjectsAndSegments (fun _ => false) stC3x [mkStream 1, mkStream 2] =
      (⟨[], []⟩, 1, 3, false) ∧
    stC3x.objects.length = 2 ∧ stC3x.segments.length = 4 := by decide

/-- Claim C4: the committed effect of a deletion batch is the per-object
all-or-nothing fold — each unit either applies both its deletes (object row
by key tuple and stream id, segment rows by stream id) or leaves the store
untouched, and the fold proceeds unit by unit, so the boundary is each
single object, never the whole page. -/
theorem C4_per_object_atomicity (failsAt : Nat → Bool) (st : MetabaseState)
    (objs : List ObjectStream) (i : Nat) (o : ObjectStream)
    (rest : List ObjectStream) :
    (deleteObjectsAndSegments failsAt st objs).1 =
        applyUnitsFrom failsAt 0 st objs ∧
    applyUnitsFrom failsAt i st (o :: rest) =
      applyUnitsFrom failsAt (i + 4)
        (if failsAt (i + 1) || failsAt (i + 2) then st else applyUnit st o)
        rest ∧
    applyUnit st o =
      ⟨st.objects.filter (fun r => !(objHit o r)),
       st.segments.filter (fun g => !(g.streamID == o.streamID))⟩ :=
  ⟨deleteObjectsAndSegments_committed failsAt st objs, rfl, rfl⟩

/-- Claim C5: a second failure-free expired pass over the store left by a
first pass, with no new data in between, performs zero deletions: its first
page is already empty, the store is returned unchanged and no deletion
batch is issued. -/
theorem C5_second_run_empty (cutoff : Int) (fuel fuel2 bs : Nat)
    (st st1 : MetabaseState) (bls : List (List ObjectStream))
    (hpair : st.objects.Pairwise (fun a b => ¬ sameKey a.stream b.stream))
    (hsid : ∀ r ∈ st.objects, r.stream.streamID ≠ 0)
    (hfuel : matchingCount (expiredPred cutoff) ObjectStream.zero st < fuel)
    (h1 : DeleteExpiredObjects cutoff (fun _ _ => false) fuel bs st =
      GCResult.done st1 bls) :
    DeleteExpiredObjects cutoff (fun _ _ => false) (fuel2 + 1) bs st1 =
      GCResult.done st1 [] := by
  obtain ⟨bls2, h2⟩ := gcLoop_noFail (expiredPred cutoff) (ensureBatchsize bs)
    (ensureBatchsize_pos bs) fuel ObjectStream.zero st 0 hpair hsid hfuel
  have h1' : DeleteExpiredObjects cutoff (fun _ _ => false) fuel bs st =
      GCResult.done (gcFilteredState (expiredPred cutoff) ObjectStream.zero st)
        bls2 := h2
  rw [h1] at h1'
  injection h1' with hst hbls
  have hnm : ∀ r ∈ st1.objects, ¬ (expiredPred cutoff r = true ∧
      keyLt ObjectStream.zero r.stream) := by
    intro r hr hand
    rw [hst, gcFilteredState_objects] at hr
    have hkeep := (List.mem_filter.1 hr).2
    rw [hand.1, decide_eq_true hand.2] at hkeep
    simp at hkeep
  exact gcLoop_noMatch (expiredPred cutoff) (ensureBatchsize bs) fuel2
    ObjectStream.zero st1 0 hnm

/-- Witness for C5 at a concrete one-object store. -/
theorem C5_second_run_empty_witness :
    DeleteExpiredObjects 1 (fun _ _ => false) (5 + 1) 10
        (⟨[], []⟩ : MetabaseState) =
      GCResult.done (⟨[], []⟩ : MetabaseState) [] :=
  C5_second_run_empty 1 2 5 10 stC1x ⟨[], []⟩ [[mkStream 1]]
    (by decide) (by decide) (by decide) (by decide)

/-- Claim C6: the page query returns at most `n` rows, all matching and
strictly above the cursor, in strictly ascending key-tuple order; and over
a whole run of the batch loop (with or without failures) the concatenation
of all scanned pages is a strict key-tuple chain above the starting
cursor — so the cursor, which is always the last scanned stream, never
regresses across batches. -/
theorem C6_visit_order (pred : ObjectRow → Bool) (failsAt : Nat → Nat → Bool)
    (bs fuel n : Nat) (c : ObjectStream) (st : MetabaseState) (bi : Nat)
    (rows : List ObjectRow) :
    (selectPage pred c n rows).length ≤ n ∧
    (∀ r ∈ selectPage pred c n rows,
      r ∈ rows ∧ pred r = true ∧ keyLt c r.stream) ∧
    List.Chain' (fun a b : ObjectRow => keyLt a.stream b.stream)
      (selectPage pred c n rows) ∧
    List.Chain' keyLt
      ((deleteObjectsAndSegmentsBatch pred failsAt bs fuel c st bi).batches).flatten ∧
    ∀ o ∈ ((deleteObjectsAndSegmentsBatch pred failsAt bs fuel c st bi).batches).flatten,
      keyLt c o := by
  refine ⟨selectPage_length, ?_, selectPage_chain,
    (gcLoop_batches_sorted pred failsAt bs fuel c st bi).1,
    (gcLoop_batches_sorted pred failsAt bs fuel c st bi).2⟩
  intro r hr
  exact selectPage_mem hr

/-- Claim C7, end-to-end scenario C: expired pass with BatchSize 2 over the
five expired objects of `stC7` issues exactly the three pages
`[2, 2, 1]`, deletes all five objects, and deletes every segment row of
each deleted object alongside (the final store is empty). -/
theorem C7_scenario :
    DeleteExpiredObjects 1 (fun _ _ => false) 10 2 stC7 =
      GCResult.done ⟨[], []⟩
        [[mkStream 1, mkStream 2], [mkStream 3, mkStream 4], [mkStream 5]] ∧
    stC7.objects.length = 5 ∧ stC7.segments.length = 5 := by decide

/-- Claim C8: the zombie pass deletes exactly the Pending objects whose
ZombieDeletionDeadline is earlier than the cutoff; a Pending object whose
deadline has not yet elapsed is not selected and survives the pass as the
very same (still Pending) row. -/
theorem C8_zombie_selection (cutoff : Int) (fuel bs : Nat)
    (st : MetabaseState) (r : ObjectRow)
    (hpair : st.objects.Pairwise (fun a b => ¬ sameKey a.stream b.stream))
    (hsid : ∀ q ∈ st.objects, q.stream.streamID ≠ 0)
    (hzero : ∀ q ∈ st.objects, keyLt ObjectStream.zero q.stream)
    (hfuel : matchingCount (zombiePred cutoff) ObjectStream.zero st < fuel)
    (hr : r ∈ st.objects) (hpend : r.status = ObjectStatus.pending)
    (hdl : ∀ t, r.zombieDeletionDeadline = some t → ¬ t < cutoff) :
    (∃ bls, DeleteZombieObjects cutoff (fun _ _ => false) fuel bs st =
      GCResult.done
        ⟨st.objects.filter (fun q => !(zombiePred cutoff q)),
         st.segments.filter (fun g => !(st.objects.any
           (fun q => zombiePred cutoff q && g.streamID == q.stream.streamID)))⟩
        bls) ∧
    r ∈ st.objects.filter (fun q => !(zombiePred cutoff q)) ∧
    r.status = ObjectStatus.pending := by
  refine ⟨gcPass_zero_noFail (zombiePred cutoff) fuel bs st hpair hsid hzero hfuel,
    ?_, hpend⟩
  refine List.mem_filter.2 ⟨hr, ?_⟩
  have hzf : zombiePred cutoff r = false := by
    unfold zombiePred
    cases hz : r.zombieDeletionDeadline with
    | none => simp [hz]
    | some t =>
      simp only [hz]
      rw [decide_eq_false (hdl t hz)]
      simp
  rw [hzf]
  rfl

/-- Witness for C8 at the concrete store `stC8x`: the Pending object with
deadline 5 survives a pass with cutoff 1. -/
theorem C8_zombie_selection_witness :
    (∃ bls, DeleteZombieObjects 1 (fun _ _ => false) 3 10 stC8x =
      GCResult.done
        ⟨stC8x.objects.filter (fun q => !(zombiePred 1 q)),
         stC8x.segments.filter (fun g => !(stC8x.objects.any
           (fun q => zombiePred 1 q && g.streamID == q.stream.streamID)))⟩
        bls) ∧
    mkRow 1 .pending none (some 5) ∈
      stC8x.objects.filter (fun q => !(zombiePred 1 q)) ∧
    (mkRow 1 .pending none (some 5)).status = ObjectStatus.pending :=
  C8_zombie_selection 1 3 10 stC8x (mkRow 1 .pending none (some 5))
    (by decide) (by decide) (by decide) (by decide) (by decide) (by decide)
    (by intro t ht; cases ht; decide)

/-- Claim C9: a failure-free pass over finitely many matching objects
terminates with completion — fuel one more than the matching count reaches
the empty page — and a pass whose first page is already empty completes at
once with the store unchanged and no batch issued. -/
theorem C9_pass_terminates (pred : ObjectRow → Bool) (bs fuel fuel2 : Nat)
    (hbs : 1 ≤ bs) (c : ObjectStream) (st st2 : MetabaseState) (bi bi2 : Nat)
    (hpair : st.objects.Pairwise (fun a b => ¬ sameKey a.stream b.stream))
    (hsid : ∀ r ∈ st.objects, r.stream.streamID ≠ 0)
    (hfuel : matchingCount pred c st < fuel)
    (hnm : ∀ r ∈ st2.objects, ¬ (pred r = true ∧ keyLt c r.stream)) :
    (∃ st3 bls, deleteObjectsAndSegmentsBatch pred (fun _ _ => false) bs fuel c st bi =
        GCResult.done st3 bls) ∧
    deleteObjectsAndSegmentsBatch pred (fun _ _ => false) bs (fuel2 + 1) c st2 bi2 =
      GCResult.done st2 [] := by
  constructor
  · obtain ⟨bls, h⟩ := gcLoop_noFail pred bs hbs fuel c st bi hpair hsid hfuel
    exact ⟨_, bls, h⟩
  · exact gcLoop_noMatch pred bs fuel2 c st2 bi2 hnm

/-- Witness for C9: the five-object scenario terminates with fuel 6, and a
pass over the empty store completes immediately. -/
theorem C9_pass_terminates_witness :
    (∃ st3 bls, deleteObjectsAndSegmentsBatch (expiredPred 1) (fun _ _ => false)
        2 6 ObjectStream.zero stC7 0 = GCResult.done st3 bls) ∧
    deleteObjectsAndSegmentsBatch (expiredPred 1) (fun _ _ => false) 2 (3 + 1)
        ObjectStream.zero (⟨[], []⟩ : MetabaseState) 0 =
      GCResult.done (⟨[], []⟩ : MetabaseState) [] :=
  C9_pass_terminates (expiredPred 1) 2 6 3 (by decide) ObjectStream.zero stC7
    ⟨[], []⟩ 0 0 (by decide) (by decide) (by decide) (by decide)

/-- Claim C10: in one deletion unit the object-row delete is conditional on
the row still having the scanned stream id (delete-if-match on key tuple
plus stream id) while the segment delete removes every segment row with
the scanned stream id unconditionally; consequently a row re-created under
the same key tuple with a different StreamID survives the unit, and so do
its new segments. -/
theorem C10_conditional_object_delete (st : MetabaseState)
    (obj : ObjectStream) (r : ObjectRow) (g : SegmentRow)
    (hr : r ∈ st.objects) (hkey : sameKey r.stream obj)
    (hsid : r.stream.streamID ≠ obj.streamID)
    (hg : g ∈ st.segments) (hgsid : g.streamID = r.stream.streamID) :
    (deleteObjectsAndSegments (fun _ => false) st [obj]).1 =
      ⟨st.objects.filter (fun q =>
         !(decide (sameKey q.stream obj) && q.stream.streamID == obj.streamID)),
       st.segments.filter (fun s => !(s.streamID == obj.streamID))⟩ ∧
    r ∈ (deleteObjectsAndSegments (fun _ => false) st [obj]).1.objects ∧
    g ∈ (deleteObjectsAndSegments (fun _ => false) st [obj]).1.segments := by
  have hmain : (deleteObjectsAndSegments (fun _ => false) st [obj]).1 =
      ⟨st.objects.filter (fun q =>
         !(decide (sameKey q.stream obj) && q.stream.streamID == obj.streamID)),
       st.segments.filter (fun s => !(s.streamID == obj.streamID))⟩ := by
    rw [deleteObjectsAndSegments_noFail_state]
    rfl
  refine ⟨hmain, ?_, ?_⟩
  · rw [hmain]
    refine List.mem_filter.2 ⟨hr, ?_⟩
    rw [beq_eq_false_iff_ne.2 hsid, Bool.and_false]
    rfl
  · rw [hmain]
    refine List.mem_filter.2 ⟨hg, ?_⟩
    rw [beq_eq_false_iff_ne.2 (by rw [hgsid]; exact hsid)]
    rfl

/-- Witness for C10: an object re-created under key 1 with stream id 9 and
its new segment survive the unit for the stale scan of stream id 1. -/
theorem C10_conditional_object_delete_witness :
    (deleteObjectsAndSegments (fun _ => false)
        (⟨[⟨⟨1, 0, 0, 0, 9⟩, .committed, some 0, none⟩], [⟨9, 0⟩, ⟨1, 0⟩]⟩ : MetabaseState)
        [mkStream 1]).1 =
      ⟨(⟨[⟨⟨1, 0, 0, 0, 9⟩, .committed, some 0, none⟩], [⟨9, 0⟩, ⟨1, 0⟩]⟩ : MetabaseState).objects.filter
         (fun q => !(decide (sameKey q.stream (mkStream 1)) &&
           q.stream.streamID == (mkStream 1).streamID)),
       (⟨[⟨⟨1, 0, 0, 0, 9⟩, .committed, some 0, none⟩], [⟨9, 0⟩, ⟨1, 0⟩]⟩ : MetabaseState).segments.filter
         (fun s => !(s.streamID == (mkStream 1).streamID))⟩ ∧
    (⟨⟨1, 0, 0, 0, 9⟩, .committed, some 0, none⟩ : ObjectRow) ∈
      (deleteObjectsAndSegments (fun _ => false)
        (⟨[⟨⟨1, 0, 0, 0, 9⟩, .committed, some 0, none⟩], [⟨9, 0⟩, ⟨1, 0⟩]⟩ : MetabaseState)
        [mkStream 1]).1.objects ∧
    (⟨9, 0⟩ : SegmentRow) ∈
      (deleteObjectsAndSegments (fun _ => false)
        (⟨[⟨⟨1, 0, 0, 0, 9⟩, .committed, some 0, none⟩], [⟨9, 0⟩, ⟨1, 0⟩]⟩ : MetabaseState)
        [mkStream 1]).1.segments :=
  C10_conditional_object_delete
    ⟨[⟨⟨1, 0, 0, 0, 9⟩, .committed, some 0, none⟩], [⟨9, 0⟩, ⟨1, 0⟩]⟩
    (mkStream 1) ⟨⟨1, 0, 0, 0, 9⟩, .committed, some 0, none⟩ ⟨9, 0⟩
    (by decide) (by decide) (by decide) (by decide) (by decide)
